import Mathlib

/-!
# Verification of the slex SSH multiplexer against its specification

Shallow embedding of the core of `crosbymichael/slex` (a Go program that runs
one command on many hosts over SSH) and proofs about it.

Program strings are embedded as `List Char` (Go strings are byte strings; all
inputs of interest here are ASCII).  Go functions that can panic are embedded
as `Option`-returning functions where `none` models the panic.  Go functions
returning `(value, error)` pairs are embedded as `Except`.
-/

set_option autoImplicit false

/-- Go `\w` (RE2 Perl character class): ASCII letters, digits and underscore. -/
def isWordChar (c : Char) : Bool :=
  c.isAlpha || c.isDigit || c = '_'

/-- Go `\s` (RE2 Perl character class): `[\t\n\f\r ]`. -/
def isGoSpace (c : Char) : Bool :=
  c = ' ' || c = '\t' || c = '\n' || c = '\x0c' || c = '\r'

/-- `strStarts s pat`: Go `strings.HasPrefix(s, pat)`. -/
def strStarts : List Char → List Char → Bool
  | _, [] => true
  | [], _ :: _ => false
  | c :: s, p :: ps => c = p && strStarts s ps

/-- `containsSub s pat`: Go `strings.Contains(s, pat)`. -/
def containsSub : List Char → List Char → Bool
  | [], pat => strStarts [] pat
  | c :: rest, pat => strStarts (c :: rest) pat || containsSub rest pat

/-- Index of the first occurrence of char `c`, Go `strings.Index` on one byte. -/
def idxOf (c : Char) : List Char → Option Nat
  | [] => none
  | x :: xs => if x = c then some 0 else (idxOf c xs).map (· + 1)

/-- Index of the last occurrence of char `c` (Go `last` helper used by
`net.SplitHostPort`). -/
def lastIdxOf (c : Char) (s : List Char) : Option Nat :=
  (idxOf c s.reverse).map (fun k => s.length - 1 - k)

/-- Go `strings.Split(content, "\n")`: split on every newline, keeping empty
parts; the result is never the empty list. -/
def splitLines : List Char → List (List Char)
  | [] => [[]]
  | c :: rest =>
    match splitLines rest with
    | [] => [[]]
    | l :: ls => if c = '\n' then [] :: l :: ls else (c :: l) :: ls

/-- Go `strings.Join(xs, sep)`. -/
def joinWith (sep : List Char) : List (List Char) → List Char
  | [] => []
  | [x] => x
  | x :: y :: rest => x ++ sep ++ joinWith sep (y :: rest)

/-- Insert-or-replace on an insertion-ordered association list; this is the
model of assignment `m[k] = v` on a Go map, with the list order recording
insertion order. -/
def upsert {α : Type} (k : List Char) (v : α) : List (List Char × α) → List (List Char × α)
  | [] => [(k, v)]
  | (k2, v2) :: rest => if k2 = k then (k, v) :: rest else (k2, v2) :: upsert k v rest

/-- Lookup in the association-list model of a Go map. -/
def lookupKey {α : Type} (k : List Char) : List (List Char × α) → Option α
  | [] => none
  | (k2, v2) :: rest => if k2 = k then some v2 else lookupKey k rest

/-!
## Option parsing (`ParseOptions`, src/unnamed/part_006 lines 73-108)

`ParseOptions` matches each entry against the RE2 pattern
`\s*(\w+)\s*=?\s*(.+)` via `FindStringSubmatch` and switches on the lowercased
first capture.  The two captures of the leftmost match (with RE2's
leftmost-biased, greedy disambiguation) are computed here directly.  All call
sites pass single lines (newline-split config lines or one `-o` value), so the
embedding assumes newline-free input, under which `.` matches every character.
-/

/-- The capture of `\s*=?\s*(.+)` matched at the start of `s` with greedy
(leftmost-biased) priorities, `none` when `s` is empty (then `(.+)` cannot
match).  Cases, in priority order: after the maximal whitespace run, an
optional `=` and a second maximal whitespace run, the rest of the line is the
capture when non-empty; otherwise the quantifiers give back a final character
so that `(.+)` can still match one character. -/
def optTail (s : List Char) : Option (List Char) :=
  let ws := s.span isGoSpace
  match ws.2 with
  | [] => (ws.1.getLast?).map (fun ch => [ch])
  | '=' :: r1 =>
    let ws2 := r1.span isGoSpace
    match ws2.2 with
    | [] =>
      match r1 with
      | [] => some ['=']
      | _ :: _ => (r1.getLast?).map (fun ch => [ch])
    | _ :: _ => some ws2.2
  | _ :: _ => some ws.2

/-- Go `regexp.MustCompile("\\s*(\\w+)\\s*=?\\s*(.+)").FindStringSubmatch`:
the two captures (keyword, value) of the leftmost match, or `none` when the
pattern does not match (`FindStringSubmatch` returns nil).  The match must
contain a word-character run (the keyword); when the line ends immediately
after the keyword, the keyword run gives back its last character to serve as
the value. -/
def optionSubmatch : List Char → Option (List Char × List Char)
  | [] => none
  | ch :: rest =>
    if isWordChar ch then
      let w := (ch :: rest).span isWordChar
      match optTail w.2 with
      | some v => some (w.1, v)
      | none =>
        if 2 ≤ w.1.length then (w.1.getLast?).map (fun lc => (w.1.dropLast, [lc]))
        else none
    else optionSubmatch rest

/-- The client options record of src/unnamed/part_006 lines 16-24
(`SSHClientOptions`). -/
structure SSHClientOptions where
  forwardAgent : List Char
  host : List Char
  hostName : List Char
  identityFile : List Char
  port : List Char
  proxyCommand : List Char
  user : List Char
deriving DecidableEq, Repr

/-- The literal defaults set by `ParseOptions`: `Host: "*"`, `Port: "22"`. -/
def defaultClientOptions : SSHClientOptions :=
  { forwardAgent := [], host := "*".toList, hostName := [], identityFile := []
    port := "22".toList, proxyCommand := [], user := [] }

/-- Go `strings.ToLower` on ASCII. -/
def toLowerStr (s : List Char) : List Char := s.map Char.toLower

/-- The `switch strings.ToLower(key)` of `ParseOptions` (part_006 lines
88-103): recognized keywords populate the matching field, anything else is
dropped. -/
def applyOption (o : SSHClientOptions) (kv : List Char × List Char) : SSHClientOptions :=
  let key := toLowerStr kv.1
  if key = "host".toList then { o with host := kv.2 }
  else if key = "hostname".toList then { o with hostName := kv.2 }
  else if key = "user".toList then { o with user := kv.2 }
  else if key = "port".toList then { o with port := kv.2 }
  else if key = "forwardagent".toList then { o with forwardAgent := kv.2 }
  else if key = "identityfile".toList then { o with identityFile := kv.2 }
  else if key = "proxycommand".toList then { o with proxyCommand := kv.2 }
  else o

/-- `ParseOptions` (src/unnamed/part_006 lines 76-108).  The source reads
`m := optionExpr.FindStringSubmatch(i); key := m[1]; value := m[2]` with no
nil check, so an entry the pattern does not match indexes a nil slice and
panics; the panic is modelled as `none`. -/
def ParseOptions (plainOpts : List (List Char)) : Option SSHClientOptions :=
  plainOpts.foldl
    (fun acc i => acc.bind (fun o => (optionSubmatch i).map (applyOption o)))
    (some defaultClientOptions)

-- sanity checks for the embedding of the regex semantics
example : optionSubmatch ("Host 127.0.0.1".toList) =
    some ("Host".toList, "127.0.0.1".toList) := by decide
example : optionSubmatch ("Host=127.0.0.1".toList) =
    some ("Host".toList, "127.0.0.1".toList) := by decide
example : optionSubmatch ("Host = 127.0.0.1".toList) =
    some ("Host".toList, "127.0.0.1".toList) := by decide
example : optionSubmatch ("Host\t127.0.0.1".toList) =
    some ("Host".toList, "127.0.0.1".toList) := by decide
example : optionSubmatch ("key".toList) = some ("ke".toList, "y".toList) := by decide
example : optionSubmatch ("key=".toList) = some ("key".toList, "=".toList) := by decide
example : optionSubmatch ("".toList) = none := by decide
example : optionSubmatch ("k".toList) = none := by decide

/-!
## Config file parsing (`ParseSSHConfigFile`, src/unnamed/part_006 lines 27-71)

The file content is split on newlines and scanned in reverse; a line matching
`\s*Host\s*=?\s*(.+)` (unanchored, via `FindStringSubmatch`) starts a section
whose lines `lines[i:end]` are fed to `ParseOptions`; then `end = i - 1`.
Lines whose first character is `#` are skipped as boundaries (but are still
inside the slices handed to `ParseOptions`).
-/

/-- Go `hostExpr.FindStringSubmatch` for `\s*Host\s*=?\s*(.+)`: the capture of
the leftmost match, `none` when there is no match (then `len(m) == 2` fails).
A match needs the literal `Host` somewhere in the line followed by a tail that
`\s*=?\s*(.+)` accepts; the leading `\s*` never changes the capture, so the
scan looks for the leftmost viable occurrence of `Host`. -/
def hostMatch : List Char → Option (List Char)
  | [] => none
  | c :: rest =>
    if strStarts (c :: rest) ("Host".toList) then
      match optTail (rest.drop 3) with
      | some v => some v
      | none => hostMatch rest
    else hostMatch rest

/-- Go slice expression `xs[i:j]` on `int` indices: panics (modelled `none`)
unless `0 ≤ i ≤ j ≤ len(xs)`. -/
def goSubslice {α : Type} (xs : List α) (i j : Int) : Option (List α) :=
  if 0 ≤ i ∧ i ≤ j ∧ j ≤ (xs.length : Int) then
    some ((xs.drop i.toNat).take (j - i).toNat)
  else none

/-- The reverse-scanning loop of `ParseSSHConfigFile` (part_006 lines 51-68).
Argument `n` is the current line index plus one, so `n = 0` terminates; the
`Int`-valued `endIdx` mirrors the Go `end` variable (which reaches `-1` after
a `Host` line at index 0).  `none` models a panic propagating out of
`ParseOptions`. -/
def revScanLoop (lines : List (List Char)) :
    Nat → Int → List (List Char × SSHClientOptions) →
    Option (List (List Char × SSHClientOptions))
  | 0, _, sections => some sections
  | n + 1, endIdx, sections =>
    let text := lines.getD n []
    if strStarts text ("#".toList) then revScanLoop lines n endIdx sections
    else
      match hostMatch text with
      | none => revScanLoop lines n endIdx sections
      | some host =>
        match goSubslice lines (n : Int) endIdx with
        | none => none
        | some seg =>
          match ParseOptions seg with
          | none => none
          | some opts => revScanLoop lines n ((n : Int) - 1) (upsert host opts sections)

/-- The content-processing part of `ParseSSHConfigFile` (part_006 lines
47-70): split on newlines, scan in reverse starting with
`end = len(lines) - 1`. -/
def parseSSHConfigContent (content : List Char) :
    Option (List (List Char × SSHClientOptions)) :=
  let lines := splitLines content
  revScanLoop lines lines.length ((lines.length : Int) - 1) []

/-- Outcome of `ioutil.ReadFile` as seen by `ParseSSHConfigFile`: the file's
content, an error for which `os.IsNotExist` holds, or any other read error. -/
inductive ReadFileResult where
  | content (text : List Char)
  | errNotExist
  | errOther
deriving DecidableEq

/-- `ParseSSHConfigFile` (src/unnamed/part_006 lines 27-71) around the file
read: a non-existing file yields the empty mapping and a nil error; any other
read error is returned; otherwise the content is parsed.  The outer `Option`
models a panic inside `ParseOptions`, the `Except` the Go `error` return. -/
def ParseSSHConfigFile (r : ReadFileResult) :
    Option (Except Unit (List (List Char × SSHClientOptions))) :=
  match r with
  | .errNotExist => some (.ok [])
  | .errOther => some (.error ())
  | .content text => (parseSSHConfigContent text).map .ok

/-!
## Forward-scanning reference model (for claim C5)

Modelled from the spec: "forward scanning where everything between one `Host`
line and the next belongs to the first"; section boundaries are the same
(non-comment) `Host` lines the reverse scanner recognizes, each section's
lines (the `Host` line and all following body lines up to the next boundary)
populate fields exactly as `ParseOptions` does, and — per the spec's parse
leniency — a line with no keyword/value split is skipped instead of

aborting.
-/

/-- A line that starts a section: not a comment and matching the `Host`
pattern (same test as the reverse scanner's boundary test). -/
def isSectionStart (l : List Char) : Option (List Char) :=
  if strStarts l ("#".toList) then none else hostMatch l

/-- Modelled from the spec: the lenient line interpreter — identical to
`ParseOptions` except that a line the option pattern does not match is
skipped rather than a panic. -/
def parseOptionsLenient (plainOpts : List (List Char)) : SSHClientOptions :=
  plainOpts.foldl
    (fun o i => match optionSubmatch i with
      | some kv => applyOption o kv
      | none => o)
    defaultClientOptions

/-- Modelled from the spec: group lines into forward sections.  Returns the
lines preceding the first `Host` line (ignored) and the list of sections in
file order, each section being its host capture together with the `Host` line
and every line up to the next boundary. -/
def fwdSections : List (List Char) →
    List (List Char) × List (List Char × List (List Char))
  | [] => ([], [])
  | l :: rest =>
    let p := fwdSections rest
    match isSectionStart l with
    | some h => ([], (h, l :: p.1) :: p.2)
    | none => (l :: p.1, p.2)

/-- Modelled from the spec: forward scanning of the whole config content,
producing the host-keyed section mapping (forward insertion order). -/
def forwardScanContent (content : List Char) : List (List Char × SSHClientOptions) :=
  (fwdSections (splitLines content)).2.foldl
    (fun m s => upsert s.1 (parseOptionsLenient s.2) m) []

-- sanity checks
example : hostMatch ("Host a".toList) = some ("a".toList) := by decide
example : hostMatch ("Port 5".toList) = none := by decide
example : hostMatch ("HostName x".toList) = some ("Name x".toList) := by decide
example : splitLines ("a\nb\n".toList) = ["a".toList, "b".toList, []] := by decide

/-!
## Effective option resolution (claim C1)

`runSSH` (src/main.go line 200) calls `getEffectiveClientOptions(job.config,
cliOptions)`, but that function's definition is not among the source files —
only its callers are.  It is therefore modelled from the spec below.
-/

/-- A field value counts as supplied ("present") when it differs from the
empty string and from the field's compiled-in default; an option record (the
output of `ParseOptions`, or the zero value for an absent config section)
carries no other marker of whether a field was explicitly given. -/
def optPresent (v d : List Char) : Prop := v ≠ [] ∧ v ≠ d

instance (v d : List Char) : Decidable (optPresent v d) := by
  unfold optPresent; infer_instance

/-- Modelled from the spec: the per-field resolution rule of
`getEffectiveClientOptions` (missing from src/, spec §4.1 `mergeOptions`):
"for every field, command-line value wins if present, else config-file value,
else default". -/
def resolveField (cliV confV defV : List Char) : List Char :=
  if optPresent cliV defV then cliV
  else if optPresent confV defV then confV
  else defV

/-- Modelled from the spec: `getEffectiveClientOptions` (called from
src/main.go line 200 but not defined under src/) merges the per-host config
section and the command-line options field by field with
command-line > config file > compiled-in default precedence; `port = "22"` is
the only default with behavioral weight (`host = "*"` is a pattern
placeholder, every other default is empty). -/
def getEffectiveClientOptions (configFileOptions cliOptions : SSHClientOptions) :
    SSHClientOptions :=
  { forwardAgent := resolveField cliOptions.forwardAgent configFileOptions.forwardAgent []
    host := resolveField cliOptions.host configFileOptions.host ("*".toList)
    hostName := resolveField cliOptions.hostName configFileOptions.hostName []
    identityFile := resolveField cliOptions.identityFile configFileOptions.identityFile []
    port := resolveField cliOptions.port configFileOptions.port ("22".toList)
    proxyCommand := resolveField cliOptions.proxyCommand configFileOptions.proxyCommand []
    user := resolveField cliOptions.user configFileOptions.user [] }

/-- The option fields, for stating per-field properties. -/
inductive OptField where
  | forwardAgent | host | hostName | identityFile | port | proxyCommand | user
deriving DecidableEq

/-- Field accessor. -/
def OptField.get : OptField → SSHClientOptions → List Char
  | .forwardAgent, o => o.forwardAgent
  | .host, o => o.host
  | .hostName, o => o.hostName
  | .identityFile, o => o.identityFile
  | .port, o => o.port
  | .proxyCommand, o => o.proxyCommand
  | .user, o => o.user

/-- Compiled-in default of each field. -/
def OptField.defaultVal : OptField → List Char
  | .host => "*".toList
  | .port => "22".toList
  | _ => []

/-!
## Authentication methods (`defaultAuthMethods`, src/unnamed/part_005 lines
138-168, and the attempt loop of `runSSH`, src/main.go lines 215-234)

The name-to-method mapping is a Go `map[string]ssh.AuthMethod`; it is
modelled as an insertion-ordered association list.  Key loading
(`newSSHPublicKeyAuthMethod`, file reads, passphrase prompts) and
`newSSHAgentAuthMethod` are modelled as oracle parameters giving the
constructed method or `none` for an error.
-/

/-- `defaultAuthMethods` (part_005 lines 138-168).  `agt` is the agent
handle: `none` when no agent was connected, otherwise the result of
`newSSHAgentAuthMethod(agt)` (`none` on error).  `homeDir` models
`user.Current().HomeDir` (`none` when `user.Current` fails), `loadKey` models
`newSSHPublicKeyAuthMethod` on a path.  When no identity file was given, the
conventional `id_dsa`, `id_ecdsa`, `id_ed25519`, `id_rsa` paths under the
user's `.ssh` directory are used; the agent method is inserted first, then
each identity file that loads. -/
def defaultAuthMethods {M : Type} (identityFiles : List (List Char))
    (agt : Option (Option M)) (homeDir : Option (List Char))
    (loadKey : List Char → Option M) : List (List Char × M) :=
  let ids := if identityFiles = [] then
      (match homeDir with
       | some h =>
         [h ++ "/.ssh/id_dsa".toList, h ++ "/.ssh/id_ecdsa".toList,
          h ++ "/.ssh/id_ed25519".toList, h ++ "/.ssh/id_rsa".toList]
       | none => identityFiles)
    else identityFiles
  let withAgent : List (List Char × M) :=
    match agt with
    | some (some am) => upsert ("ssh-agent".toList) am []
    | some none => []
    | none => []
  ids.foldl
    (fun acc i => match loadKey i with
      | some km => upsert i km acc
      | none => acc)
    withAgent

/-- The authentication loop of `runSSH` (src/main.go lines 216-230): iterate
the method collection in the given order, each iteration overwriting the
`session, err` pair with `NewSession`'s result (modelled by `attempt`), and
break on the first nil error.  Returns the final `(session, err)` pair. -/
def authScan {M S E : Type} (attempt : M → Option S × Option E) :
    List M → Option S × Option E
  | [] => (none, none)
  | m :: rest =>
    match attempt m, rest with
    | (s, none), _ => (s, none)
    | (s, some e), [] => (s, some e)
    | (_, some _), _ :: _ => authScan attempt rest

/-- The tail of `runSSH` (src/main.go lines 232-234): when the loop leaves a
nil session, the synthesized error is returned. -/
def runSSHAuthPhase {M S E : Type} (attempt : M → Option S × Option E)
    (order : List M) : Except String S :=
  match (authScan attempt order).1 with
  | none => .error "none of the provided authentication methods can establish SSH session successfully"
  | some s => .ok s

/-!
## Proxy-command transport teardown (`ProxyCmdConn.Close`, src/README.md
lines 186-198)

`Close` closes the subprocess's stdin (the `WriteCloser`) and then its stdout
(the `ReadCloser`), returning early on a write-side error.  The trace of
close calls is recorded.
-/

/-- The two close calls a `ProxyCmdConn.Close` can issue. -/
inductive CloseEvent where
  | closeWrite
  | closeRead
deriving DecidableEq

/-- `ProxyCmdConn.Close`: `wErr`/`rErr` are the outcomes the two underlying
`Close` calls would have; the result is the trace of calls actually issued
and the returned error. -/
def proxyCmdConnClose (wErr rErr : Option Unit) : List CloseEvent × Option Unit :=
  match wErr with
  | some e => ([.closeWrite], some e)
  | none =>
    match rErr with
    | some e => ([.closeWrite, .closeRead], some e)
    | none => ([.closeWrite, .closeRead], none)

/-!
## `cleanHost` (src/main.go lines 253-268)

`cleanHost` uses `net.SplitHostPort` and `net.JoinHostPort` from the Go
standard library; both are embedded below following their stdlib source.  A
`net.AddrError` renders as `"address " + Addr + ": " + Err`, and `cleanHost`
treats an error as "missing port" via `strings.Contains` on that rendering.
-/

/-- `net.AddrError`: the offending address and the error text. -/
structure AddrError where
  addr : List Char
  why : List Char
deriving DecidableEq

/-- `AddrError.Error()`: `"address " + Addr + ": " + Err`. -/
def addrErrorText (e : AddrError) : List Char :=
  "address ".toList ++ e.addr ++ ": ".toList ++ e.why

/-- `net.SplitHostPort`: the port starts after the last colon; a leading `[`
introduces a bracketed host that must be closed by `]` immediately before
that colon; stray brackets or extra colons are errors. -/
def splitHostPort (hostport : List Char) :
    Except AddrError (List Char × List Char) :=
  match lastIdxOf ':' hostport with
  | none => .error ⟨hostport, "missing port in address".toList⟩
  | some i =>
    if hostport.head? = some '[' then
      match idxOf ']' hostport with
      | none => .error ⟨hostport, "missing ']' in address".toList⟩
      | some endi =>
        if endi + 1 = hostport.length then
          .error ⟨hostport, "missing port in address".toList⟩
        else if (endi + 1 : Int) = (i : Int) then
          -- host = hostport[1:endi]; j, k = 1, endi+1
          if (idxOf '[' (hostport.drop 1)).isSome then
            .error ⟨hostport, "unexpected '[' in address".toList⟩
          else if (idxOf ']' (hostport.drop (endi + 1))).isSome then
            .error ⟨hostport, "unexpected ']' in address".toList⟩
          else .ok ((hostport.drop 1).take (endi - 1), hostport.drop (i + 1))
        else if hostport.getD (endi + 1) ' ' = ':' then
          .error ⟨hostport, "too many colons in address".toList⟩
        else .error ⟨hostport, "missing port in address".toList⟩
    else
      let host := hostport.take i
      if (idxOf ':' host).isSome then
        .error ⟨hostport, "too many colons in address".toList⟩
      else if (idxOf '[' hostport).isSome then
        .error ⟨hostport, "unexpected '[' in address".toList⟩
      else if (idxOf ']' hostport).isSome then
        .error ⟨hostport, "unexpected ']' in address".toList⟩
      else .ok (host, hostport.drop (i + 1))

/-- `net.JoinHostPort`: a host containing a colon is assumed to be an IPv6
literal and is bracketed. -/
def joinHostPort (host port : List Char) : List Char :=
  if (idxOf ':' host).isSome then
    '[' :: host ++ (']' :: ':' :: port)
  else host ++ (':' :: port)

/-- `cleanHost` (src/main.go lines 255-268): split the host and port; a
split error whose rendered text does not contain `"missing port in address"`
is returned, otherwise the original string is kept as host with port `"22"`;
an empty port also becomes `"22"`; the result is rejoined. -/
def cleanHost (host : List Char) : Except (List Char) (List Char) :=
  match splitHostPort host with
  | .error e =>
    if !containsSub (addrErrorText e) ("missing port in address".toList) then
      .error (addrErrorText e)
    else
      .ok (joinHostPort host ("22".toList))
  | .ok (h, port) =>
    let port2 := if port = [] then "22".toList else port
    .ok (joinHostPort h port2)

/-!
## `job.read` (src/main.go lines 175-182)

`read(count)` joins the last `count` accumulated lines, or all of them when
there are fewer.  The slice expression `i.lines[from:]` is modelled with the
panicking `goSubslice`-style guard so that the in-bounds claim is a theorem
rather than an assumption; the method only reads `i.lines`, so the embedding
is a pure function of the line list. -/
def jobRead (lines : List (List Char)) (count : Nat) : Option (List Char) :=
  let l : Int := lines.length
  let lo : Int := l - (count : Int)
  if lo < 0 then some (joinWith ['\n'] lines)
  else
    if 0 ≤ lo ∧ lo ≤ l then some (joinWith ['\n'] (lines.drop lo.toNat))
    else none

-- sanity checks
example : cleanHost ("192.168.1.3".toList) = .ok ("192.168.1.3:22".toList) := rfl
example : cleanHost ("192.168.1.3:2222".toList) = .ok ("192.168.1.3:2222".toList) := rfl
example : cleanHost ("[::1".toList) =
    .error ("address [::1: missing ']' in address".toList) := rfl
example : cleanHost ("[::1]:22".toList) = .ok ("[::1]:22".toList) := rfl
example : jobRead ["a".toList, "b".toList, "c".toList] 2 = some ("b\nc".toList) := by
  decide
example : jobRead ["a".toList] 5 = some ("a".toList) := by decide

/-!
## Claim theorems
-/

/-- Claim C2: for all four supported option-line syntaxes — `key value`,
`key=value`, `key = value` and `key<TAB>value` — `ParseOptions` applied to
`["Host 127.0.0.1", "Port 22"]` (and its `=` and tab variants) yields options
with `Host = "127.0.0.1"` and `Port = "22"`; keyword matching is
case-insensitive and unrecognized keywords are silently dropped. -/
theorem parseOptions_four_syntaxes :
    (ParseOptions ["Host 127.0.0.1".toList, "Port 22".toList]).map
        (fun o => (o.host, o.port)) = some ("127.0.0.1".toList, "22".toList)
    ∧ (ParseOptions ["Host=127.0.0.1".toList, "Port=22".toList]).map
        (fun o => (o.host, o.port)) = some ("127.0.0.1".toList, "22".toList)
    ∧ (ParseOptions ["Host = 127.0.0.1".toList, "Port = 22".toList]).map
        (fun o => (o.host, o.port)) = some ("127.0.0.1".toList, "22".toList)
    ∧ (ParseOptions ["Host\t127.0.0.1".toList, "Port\t22".toList]).map
        (fun o => (o.host, o.port)) = some ("127.0.0.1".toList, "22".toList)
    ∧ (ParseOptions ["hOsT 127.0.0.1".toList, "PORT 22".toList]).map
        (fun o => (o.host, o.port)) = some ("127.0.0.1".toList, "22".toList)
    ∧ ParseOptions ["Host 127.0.0.1".toList, "Port 22".toList, "Frobnicate yes".toList]
        = ParseOptions ["Host 127.0.0.1".toList, "Port 22".toList] :=
  ⟨rfl, rfl, rfl, rfl, rfl, by decide⟩

/-- Claim C3 (refuting evaluation): `ParseOptions` panics — modelled as
`none` — on an entry with no keyword/value split.  The empty string (an empty
`-o` value, or a blank line inside a config-file `Host` section) makes
`optionExpr.FindStringSubmatch` return nil and `m[1]` indexes out of range.
The second conjunct shows a config file containing a blank line inside a
section reaches the panic through `ParseSSHConfigFile`. -/
theorem parseOptions_panics_on_malformed :
    ParseOptions [("" : String).toList] = none
    ∧ parseSSHConfigContent ("Host a\n\nUser u\n".toList) = none :=
  ⟨rfl, rfl⟩

/-- Claim C5 (refuting evaluation): the reverse scanner of
`ParseSSHConfigFile` slices `lines[i:end]` with `end` already moved to the
line *before* the next-later `Host` line, so the last body line of every
non-final section is dropped.  On `"Host a\nPort 5\nHost b\nPort 7\n"` the
reverse scan leaves host `a` with the default port `"22"`, while forward
scanning — everything between one `Host` line and the next belongs to the
first — assigns it `"5"`. -/
theorem reverse_forward_scan_divergence :
    ((parseSSHConfigContent ("Host a\nPort 5\nHost b\nPort 7\n".toList)).bind
        (fun m => lookupKey ("a".toList) m)).map SSHClientOptions.port
      = some ("22".toList)
    ∧ (lookupKey ("a".toList)
          (forwardScanContent ("Host a\nPort 5\nHost b\nPort 7\n".toList))).map
        SSHClientOptions.port
      = some ("5".toList) :=
  ⟨rfl, rfl⟩

/-- Claim C4: a config file whose path does not exist is not an error —
`ParseSSHConfigFile` returns the empty section mapping and a nil error — and
an error is returned only for read failures other than non-existence. -/
theorem parseSSHConfigFile_missing_file_ok :
    ParseSSHConfigFile ReadFileResult.errNotExist = some (Except.ok [])
    ∧ ∀ r : ReadFileResult,
        (∃ e, ParseSSHConfigFile r = some (Except.error e)) →
        r = ReadFileResult.errOther := by
  refine ⟨rfl, ?_⟩
  rintro r ⟨e, he⟩
  cases r with
  | errOther => rfl
  | errNotExist => simp [ParseSSHConfigFile] at he
  | content text =>
    cases h : parseSSHConfigContent text with
    | none => simp [ParseSSHConfigFile, h] at he
    | some m => simp [ParseSSHConfigFile, h] at he

/-- Witness for C4: the only `ReadFileResult` on which `ParseSSHConfigFile`
returns an error is `errOther`. -/
theorem parseSSHConfigFile_missing_file_ok_witness :
    ReadFileResult.errOther = ReadFileResult.errOther :=
  parseSSHConfigFile_missing_file_ok.2 ReadFileResult.errOther ⟨(), rfl⟩

/-- Claim C8: every close of a `ProxyCmdConn` closes the write side (the
subprocess's stdin) first; the read side (its stdout) is closed after it or —
when the write-side close fails — not at all, and never before it. -/
theorem proxyCmdConnClose_write_before_read :
    ∀ wErr rErr : Option Unit,
      (proxyCmdConnClose wErr rErr).1.head? = some CloseEvent.closeWrite
      ∧ ((proxyCmdConnClose wErr rErr).1 = [CloseEvent.closeWrite]
         ∨ (proxyCmdConnClose wErr rErr).1
             = [CloseEvent.closeWrite, CloseEvent.closeRead]) := by
  intro wErr rErr
  cases wErr with
  | some e => exact ⟨rfl, Or.inl rfl⟩
  | none =>
    cases rErr with
    | some e => exact ⟨rfl, Or.inr rfl⟩
    | none => exact ⟨rfl, Or.inr rfl⟩

/-- Claim C9: `cleanHost("192.168.1.3")` appends the default port, yielding
`"192.168.1.3:22"`; `cleanHost("192.168.1.3:2222")` is returned unchanged;
and on a malformed bracketed address such as `"[::1"` `cleanHost` returns the
underlying `missing ']' in address` error rather than a silently-wrong
value. -/
theorem cleanHost_spec_examples :
    cleanHost ("192.168.1.3".toList) = Except.ok ("192.168.1.3:22".toList)
    ∧ cleanHost ("192.168.1.3:2222".toList) = Except.ok ("192.168.1.3:2222".toList)
    ∧ cleanHost ("[::1".toList)
        = Except.error ("address [::1: missing ']' in address".toList) :=
  ⟨rfl, rfl, rfl⟩

/-- On a break (`err == nil`), the loop's final pair is the breaking
attempt's result. -/
theorem authScan_cons_break {M S E : Type} (attempt : M → Option S × Option E)
    (m : M) (rest : List M) (h : (attempt m).2 = none) :
    authScan attempt (m :: rest) = attempt m := by
  cases hr : attempt m with
  | mk s e =>
    rw [hr] at h
    cases e with
    | none =>
      cases rest <;> simp [authScan, hr]
    | some ex => simp at h

/-- A failing attempt followed by further methods is skipped. -/
theorem authScan_cons_skip {M S E : Type} (attempt : M → Option S × Option E)
    (m a : M) (b : List M) (e : E) (h : (attempt m).2 = some e) :
    authScan attempt (m :: a :: b) = authScan attempt (a :: b) := by
  cases hr : attempt m with
  | mk s e2 =>
    rw [hr] at h
    cases e2 with
    | none => simp at h
    | some ex => simp [authScan, hr]

/-- The loop over a single method leaves that attempt's pair (be it a break
or an exhausted loop). -/
theorem authScan_singleton {M S E : Type} (attempt : M → Option S × Option E)
    (m : M) : authScan attempt [m] = attempt m := by
  cases hr : attempt m with
  | mk s e => cases e <;> simp [authScan, hr]

/-- When every attempt leaves a nil session, so does the whole loop. -/
theorem authScan_fst_none {M S E : Type} (attempt : M → Option S × Option E) :
    ∀ order : List M, (∀ m ∈ order, (attempt m).1 = none) →
      (authScan attempt order).1 = none := by
  intro order
  induction order with
  | nil => exact fun _ => rfl
  | cons m rest ih =>
    intro h
    have hm : (attempt m).1 = none := h m (by simp)
    cases rest with
    | nil => rw [authScan_singleton, hm]
    | cons a b =>
      cases he : (attempt m).2 with
      | none => rw [authScan_cons_break attempt m _ he, hm]
      | some ex =>
        rw [authScan_cons_skip attempt m a b ex he]
        exact ih (fun x hx => h x (by simp [hx]))

/-- The first attempt with a nil error short-circuits the loop: the final
pair is that attempt's result, whatever comes after it. -/
theorem authScan_first_success {M S E : Type} (attempt : M → Option S × Option E) :
    ∀ (pre : List M) (m : M) (post : List M),
      (∀ m2 ∈ pre, (attempt m2).2 ≠ none) → (attempt m).2 = none →
      authScan attempt (pre ++ m :: post) = attempt m := by
  intro pre
  induction pre with
  | nil =>
    intro m post _ hm
    exact authScan_cons_break attempt m post hm
  | cons p pre2 ih =>
    intro m post hpre hm
    have hp : (attempt p).2 ≠ none := hpre p (by simp)
    cases he : (attempt p).2 with
    | none => exact absurd he hp
    | some ex =>
      cases hsh : pre2 ++ m :: post with
      | nil => exact absurd hsh (by simp)
      | cons a b =>
        rw [List.cons_append, hsh, authScan_cons_skip attempt p a b ex he, ← hsh]
        exact ih m post (fun x hx => hpre x (by simp [hx])) hm

/-- Claim C7: when every authentication method in the collection fails to
establish a session (its attempt leaves a nil session) — including the empty
collection — `runSSH`'s authentication phase returns exactly the synthesized
error message; and the first method whose attempt returns a nil error
short-circuits all remaining methods. -/
theorem runSSH_auth_exhaustion_and_short_circuit :
    ∀ (M S E : Type) (attempt : M → Option S × Option E) (order : List M),
      ((∀ m ∈ order, (attempt m).1 = none) →
        runSSHAuthPhase attempt order = Except.error
          "none of the provided authentication methods can establish SSH session successfully")
      ∧ (∀ (pre : List M) (m : M) (post : List M),
          order = pre ++ m :: post →
          (∀ m2 ∈ pre, (attempt m2).2 ≠ none) →
          (attempt m).2 = none →
          authScan attempt order = attempt m) := by
  intro M S E attempt order
  constructor
  · intro h
    unfold runSSHAuthPhase
    rw [authScan_fst_none attempt order h]
  · intro pre m post horder hpre hm
    rw [horder]
    exact authScan_first_success attempt pre m post hpre hm

/-- Witness for C7: with two methods that both fail with a nil session, the
authentication phase returns the exact synthesized message. -/
theorem runSSH_auth_exhaustion_witness :
    runSSHAuthPhase (fun _ : Unit => ((none : Option Unit), (some () : Option Unit)))
        [(), ()]
      = Except.error
          "none of the provided authentication methods can establish SSH session successfully" :=
  (runSSH_auth_exhaustion_and_short_circuit Unit Unit Unit
      (fun _ => (none, some ())) [(), ()]).1 (fun _ _ => rfl)

/-- `upsert` never empties a map and, on a non-empty map, never changes the
key at the head (it either replaces the head entry in place or touches only
the tail). -/
theorem upsert_head_key {α : Type} (k : List Char) (v : α) :
    ∀ l : List (List Char × α), l ≠ [] →
      (upsert k v l).head?.map Prod.fst = l.head?.map Prod.fst := by
  intro l hl
  cases l with
  | nil => exact absurd rfl hl
  | cons x rest =>
    by_cases hk : x.1 = k
    · simp [upsert, hk]
    · simp [upsert, hk]

/-- `upsert` is never the empty map. -/
theorem upsert_ne_nil {α : Type} (k : List Char) (v : α)
    (l : List (List Char × α)) : upsert k v l ≠ [] := by
  cases l with
  | nil => simp [upsert]
  | cons x rest =>
    by_cases hk : x.1 = k <;> simp [upsert, hk]

/-- The identity-file loop of `defaultAuthMethods` preserves the key at the
head of a non-empty mapping. -/
theorem authFold_head {M : Type} (loadKey : List Char → Option M) :
    ∀ (ids : List (List Char)) (acc : List (List Char × M)), acc ≠ [] →
      ((ids.foldl
          (fun acc2 i => match loadKey i with
            | some km => upsert i km acc2
            | none => acc2)
          acc).head?.map Prod.fst) = acc.head?.map Prod.fst := by
  intro ids
  induction ids with
  | nil => intro acc h; rfl
  | cons i ids2 ih =>
    intro acc h
    simp only [List.foldl_cons]
    cases hl : loadKey i with
    | none => simpa [hl] using ih acc h
    | some km =>
      have h2 := ih (upsert i km acc) (upsert_ne_nil i km acc)
      simp only [hl] at h2 ⊢
      exact h2.trans (upsert_head_key i km acc h)

/-- A concrete method mapping built by `defaultAuthMethods` with an agent
present and one identity file that loads: insertion order is
`ssh-agent` first, then `id_rsa`. -/
def c6Methods : List (List Char × Nat) :=
  defaultAuthMethods ["id_rsa".toList] (some (some 1)) none (fun _ => some 0)

/-- A Go-map iteration order of `c6Methods` that visits the static key
first.  Go's language specification leaves map iteration order unspecified
(and the runtime randomizes it), so any permutation of the entries is an
admissible order for `for k, m := range methods`. -/
def c6Order : List (List Char × Nat) :=
  [("id_rsa".toList, 0), ("ssh-agent".toList, 1)]

/-- Claim C6 counterexample: it is *not* the case that every admissible
iteration order of the method mapping attempts the entries in insertion
order — the methods live in a Go `map`, so an order that tries the static
key `id_rsa` before `ssh-agent` is admissible even though the agent method
was inserted first. -/
theorem auth_insertion_order_counterexample :
    ¬ (∀ order : List (List Char × Nat), order.Perm c6Methods →
         order.head?.map Prod.fst = some ("ssh-agent".toList)) := by
  intro h
  have hp : c6Order.Perm c6Methods := by decide
  have hhead := h c6Order hp
  exact absurd hhead (by decide)

/-- Claim C6 (amended): when an agent handle is supplied and the agent
method constructs, `defaultAuthMethods` inserts the agent-backed strategy
into the mapping first (it heads the insertion order, whatever identity
files follow); the attempt order over the Go map, however, is unspecified,
so the agent method is not guaranteed to be tried before static-key
methods. -/
theorem agent_method_inserted_first :
    ∀ (M : Type) (identityFiles : List (List Char)) (am : M)
      (homeDir : Option (List Char)) (loadKey : List Char → Option M),
      (defaultAuthMethods identityFiles (some (some am)) homeDir
          loadKey).head?.map Prod.fst = some ("ssh-agent".toList) := by
  intro M identityFiles am homeDir loadKey
  unfold defaultAuthMethods
  exact (authFold_head loadKey _ [("ssh-agent".toList, am)] (by simp)).trans rfl

/-- The three-way case analysis of the spec's precedence rule for one
field. -/
theorem resolveField_spec (c v d : List Char) :
    (optPresent c d → resolveField c v d = c)
    ∧ (¬ optPresent c d → optPresent v d → resolveField c v d = v)
    ∧ (¬ optPresent c d → ¬ optPresent v d → resolveField c v d = d) := by
  by_cases h1 : optPresent c d <;> by_cases h2 : optPresent v d <;>
    simp [resolveField, h1, h2]

/-- Claim C1: for every target host's config section, every command-line
option record and every option field, the effective value resolved by
`getEffectiveClientOptions` follows exactly the precedence
command-line > per-host config-file section > compiled-in default (port
`"22"` being the only default with behavioral weight): the command-line
value wins whenever present — so the reverse order is never applied — the
config-file value wins when the command-line value is absent, and the
default applies only when both are absent. -/
theorem effectiveOptions_precedence :
    ∀ (f : OptField) (conf cli : SSHClientOptions),
      (optPresent (f.get cli) f.defaultVal →
        f.get (getEffectiveClientOptions conf cli) = f.get cli)
      ∧ (¬ optPresent (f.get cli) f.defaultVal →
          optPresent (f.get conf) f.defaultVal →
          f.get (getEffectiveClientOptions conf cli) = f.get conf)
      ∧ (¬ optPresent (f.get cli) f.defaultVal →
          ¬ optPresent (f.get conf) f.defaultVal →
          f.get (getEffectiveClientOptions conf cli) = f.defaultVal) := by
  intro f conf cli
  cases f <;> exact resolveField_spec _ _ _

/-- Witness for C1: with a config section carrying port `2222` and no
command-line port, the effective port is the config section's. -/
theorem effectiveOptions_precedence_witness :
    OptField.port.get
        (getEffectiveClientOptions { defaultClientOptions with port := "2222".toList }
          defaultClientOptions)
      = OptField.port.get { defaultClientOptions with port := "2222".toList } :=
  (effectiveOptions_precedence .port
      { defaultClientOptions with port := "2222".toList } defaultClientOptions).2.1
    (by decide) (by decide)

/-- Claim C10: for every job line list and every non-negative count,
`job.read` never slices out of bounds (the guarded slice always succeeds):
with fewer than `count` accumulated lines it returns all of them joined by
newlines, and otherwise exactly the last `count` lines joined by newlines;
being a pure function of the line list, it leaves the job's lines
unchanged. -/
theorem jobRead_in_bounds :
    ∀ (lines : List (List Char)) (count : Nat),
      (jobRead lines count).isSome = true
      ∧ (lines.length < count → jobRead lines count = some (joinWith ['\n'] lines))
      ∧ (count ≤ lines.length →
          jobRead lines count
            = some (joinWith ['\n'] (lines.drop (lines.length - count)))
          ∧ (lines.drop (lines.length - count)).length = count) := by
  intro lines count
  simp only [jobRead]
  by_cases h : ((lines.length : Int)) - (count : Int) < 0
  · rw [if_pos h]
    exact ⟨rfl, fun _ => rfl, fun hc => absurd hc (by omega)⟩
  · rw [if_neg h]
    have hcond : (0 : Int) ≤ (lines.length : Int) - (count : Int)
        ∧ (lines.length : Int) - (count : Int) ≤ (lines.length : Int) := by omega
    rw [if_pos hcond]
    have htn : ((lines.length : Int) - (count : Int)).toNat = lines.length - count := by
      omega
    rw [htn]
    refine ⟨rfl, fun hlt => absurd hlt (by omega), fun _ => ⟨rfl, ?_⟩⟩
    rw [List.length_drop]
    omega

/-- Witness for C10: three accumulated lines, count 2 — the last two lines,
joined by a newline. -/
theorem jobRead_in_bounds_witness :
    jobRead ["a".toList, "b".toList, "c".toList] 2
      = some (joinWith ['\n']
          ((["a".toList, "b".toList, "c".toList]).drop
            ((["a".toList, "b".toList, "c".toList]).length - 2)))
    ∧ ((["a".toList, "b".toList, "c".toList]).drop
          ((["a".toList, "b".toList, "c".toList]).length - 2)).length = 2 :=
  (jobRead_in_bounds ["a".toList, "b".toList, "c".toList] 2).2.2 (by decide)
